import Mathlib

/-!
Shallow embedding of the Lykke.Job.Steem ledger-reconciliation core.

The embedding follows the TypeScript sources:
* `BalanceRepository` (`src/unnamed/part_000`),
* `SteemService.handleActions` / `SteemService.handleExpired` (`src/unnamed/part_001`),
* `ParamsRepository` (`src/src/domain/params.ts`).

Collaborators whose code is not under `src/` (`operations.ts`, `history.ts`,
`assets.ts`, `common.ts`, `azure.ts`, `mongo.ts`) are modelled from the spec;
each such definition carries a doc comment starting with `Modelled from the spec:`.

JavaScript numbers are modelled as exact rationals (`Rat`); timestamps
(`Date` values) as natural numbers (epoch instants); the Mongo and Azure
stores as in-memory lists with the documented key semantics.
-/

namespace LykkeSteem

/-- Value of a list of decimal digit characters, most significant first;
models the digit accumulation of JS `parseInt`. -/
def digitsVal (l : List Char) : Nat :=
  l.foldl (fun a c => a * 10 + (c.toNat - 48)) 0

/-- Decimal digit characters of `n`, most significant first; the `fuel`
argument only bounds the recursion (any `fuel ≥ n` yields the digits). -/
def natToDigitsAux : Nat → Nat → List Char
  | 0, _ => []
  | _ + 1, 0 => []
  | fuel + 1, n + 1 =>
    natToDigitsAux fuel ((n + 1) / 10) ++ [Char.ofNat (48 + (n + 1) % 10)]

/-- Models `Number.prototype.toFixed()` / `Number.prototype.toString()` on a
nonnegative integer: its decimal representation. -/
def natToDecString (n : Nat) : String :=
  if n = 0 then "0" else { data := natToDigitsAux n n }

/-- Models JS `parseInt(s) || 0` as used for continuation tokens: the value of
the maximal leading run of decimal digits, and `0` when there is none
(`parseInt` yields `NaN` there and `|| 0` turns it into `0`). -/
def parseIntD (s : String) : Nat :=
  digitsVal (s.data.takeWhile (fun c => c.isDigit))

/-- Models JS `parseFloat` on the decimal amount strings this job meets:
optional sign, integer digits, optional fraction. The result is the exact
rational value (IEEE rounding is not modelled); an input with no leading
number (`NaN` in JS) is modelled as `0` — no claim depends on that case. -/
def parseFloatModel (s : String) : Rat :=
  let l := s.data
  let sign : Rat := if l.head? = some '-' then -1 else 1
  let l1 := if l.head? = some '-' ∨ l.head? = some '+' then l.tail else l
  let ip := l1.takeWhile (fun c => c.isDigit)
  let l2 := l1.drop ip.length
  let fp := if l2.head? = some '.' then (l2.drop 1).takeWhile (fun c => c.isDigit) else []
  sign * ((digitsVal ip : Rat) + (digitsVal fp : Rat) / ((10 : Rat) ^ fp.length))

/-- Models `transfer.amount.split(" ", 2)`: the first two space-separated
parts; the second is absent when the string holds no space. -/
def splitAmount (s : String) : String × Option String :=
  let first := s.data.takeWhile (fun c => c ≠ ' ')
  if first.length = s.data.length then (s, none)
  else ({ data := first },
        some { data := (s.data.drop (first.length + 1)).takeWhile (fun c => c ≠ ' ') })

/-- The stored checkpoint row (`ParamsEntity` of `params.ts`); a field is
`none` when the stored entity does not carry the property. -/
structure ParamsRow where
  NextActionSequence : Option Nat
  LastProcessedIrreversibleBlockTime : Option Nat
deriving DecidableEq

/-- The argument object of `ParamsRepository.upsert`; an absent optional
member is `none` (JS `undefined`). -/
structure ParamsUpdate where
  nextActionSequence : Option Nat
  lastProcessedIrreversibleBlockTime : Option Nat
deriving DecidableEq

/-- Modelled from the spec: Azure table `insertOrMerge` (`azure.ts` is not
under `src/`): properties present on the written entity overwrite the stored
ones, absent (`undefined`) properties keep their stored value, and a missing
row is created with exactly the present properties. -/
def insertOrMerge (cur : Option ParamsRow) (u : ParamsUpdate) : ParamsRow :=
  match cur with
  | none => { NextActionSequence := u.nextActionSequence,
              LastProcessedIrreversibleBlockTime := u.lastProcessedIrreversibleBlockTime }
  | some p => { NextActionSequence := u.nextActionSequence <|> p.NextActionSequence,
                LastProcessedIrreversibleBlockTime :=
                  u.lastProcessedIrreversibleBlockTime <|> p.LastProcessedIrreversibleBlockTime }

/-- `ParamsRepository.upsert` (`params.ts`): builds an entity carrying exactly
the fields of the argument object (absent ones `undefined`) and
insert-or-merges it into the single checkpoint row. -/
def paramsUpsert (cur : Option ParamsRow) (u : ParamsUpdate) : ParamsRow :=
  insertOrMerge cur u

/-- A Mongo document of the `SteemBalances` collection (`BalanceEntity` of
`part_000`); its `_id` is `Address_AssetId_OperationOrTxId`. -/
structure BalanceEntity where
  Address : String
  AssetId : String
  OperationOrTxId : String
  Amount : Rat
  AmountInBaseUnit : Rat
  Block : Nat
  IsCancelled : Bool
  IsObservable : Bool
deriving DecidableEq

/-- The composite `_id` computed by `BalanceRepository.upsert`. -/
def balanceId (address assetId operationOrTxId : String) : String :=
  address ++ "_" ++ assetId ++ "_" ++ operationOrTxId

/-- Whether a stored entity's `_id` equals the `_id` computed from the given
key triple. -/
def sameBalanceId (address assetId operationOrTxId : String) (e : BalanceEntity) : Bool :=
  balanceId e.Address e.AssetId e.OperationOrTxId == balanceId address assetId operationOrTxId

/-- Modelled from the spec: a history-ledger row (§3 HistoryEntry) — keyed by
`(txId, actionId)`; `history.ts` is not under `src/`. -/
structure HistoryEntity where
  FromAddress : String
  ToAddress : String
  AssetId : String
  Amount : Rat
  AmountInBaseUnit : Rat
  Block : Nat
  BlockTime : Nat
  TxId : String
  ActionId : String
  OperationId : Option String
deriving DecidableEq

/-- The `ErrorCode` value used by the expiry sweep (`operations.ts`, not under
`src/`; only the member `handleExpired` uses is modelled). -/
inductive ErrorCode where
  | buildingShouldBeRepeated
deriving DecidableEq

/-- Modelled from the spec: a planned action of an Operation (§3
OperationAction) — `operations.ts` is not under `src/`. -/
structure OperationAction where
  FromAddress : String
  ToAddress : String
  Amount : Rat
  AmountInBaseUnit : Rat
  RowKey : String
deriving DecidableEq

/-- Modelled from the spec: an Operation record (§3) — `operations.ts` is not
under `src/`. `isCompleted` / `isFailed` hold exactly when a completion /
fail time has been recorded. -/
structure Operation where
  OperationId : String
  AssetId : String
  ExpiryTime : Nat
  CompletionTime : Option Nat
  FailTime : Option Nat
  BlockTime : Option Nat
  Block : Option Nat
  errorCode : Option ErrorCode
  error : Option String
deriving DecidableEq

/-- `operation.isCompleted()`: a completion time has been recorded. -/
def Operation.isCompleted (op : Operation) : Bool :=
  op.CompletionTime.isSome

/-- `operation.isFailed()`: a fail time has been recorded. -/
def Operation.isFailed (op : Operation) : Bool :=
  op.FailTime.isSome

/-- The fields passed to `OperationRepository.update`; `none` means the field
is absent from the update object. -/
structure OperationUpdate where
  completionTime : Option Nat
  blockTime : Option Nat
  block : Option Nat
  errorCode : Option ErrorCode
  error : Option String
  failTime : Option Nat
deriving DecidableEq

/-- Modelled from the spec: merging an update into an Operation row
(`operations.ts` uses the same insert-or-merge table semantics as the
checkpoint): present fields overwrite, absent fields keep the stored value. -/
def applyOperationUpdate (op : Operation) (u : OperationUpdate) : Operation :=
  { op with
    CompletionTime := u.completionTime <|> op.CompletionTime,
    FailTime := u.failTime <|> op.FailTime,
    BlockTime := u.blockTime <|> op.BlockTime,
    Block := u.block <|> op.Block,
    errorCode := u.errorCode <|> op.errorCode,
    error := u.error <|> op.error }

/-- The payload of a `transfer` action (`action.op[1]`). The source field
`from` is a Lean keyword and is embedded as `sender`; an absent or empty memo
is the empty string (both are falsy for `!!transfer.memo`). -/
structure TransferPayload where
  sender : String
  «to» : String
  amount : String
  memo : String
deriving DecidableEq

/-- `action.op`: a transfer carries its payload; any other operation type only
carries its name. -/
inductive ActionOp where
  | transfer : TransferPayload → ActionOp
  | other : String → ActionOp
deriving DecidableEq

/-- One account-history action as consumed by `handleActions`; `timestamp` is
the already-parsed block time (`isoUTC` is modelled as the identity on these
pre-parsed instants). -/
structure Action where
  block : Nat
  timestamp : Nat
  trx_id : String
  op : ActionOp
deriving DecidableEq

/-- Modelled from the spec: an Asset Directory record — `assets.ts` is not
under `src/`; `resolve(symbol)` yields the internal asset id and the base-unit
conversion factor. -/
structure Asset where
  AssetId : String
  Multiplier : Nat
deriving DecidableEq

/-- Modelled from the spec: `asset.toBaseUnit(value)` — multiplication by the
asset's base-unit factor. -/
def Asset.toBaseUnit (a : Asset) (value : Rat) : Rat :=
  value * (a.Multiplier : Rat)

/-- Modelled from the spec: the chain-native address separator
(`ADDRESS_SEPARATOR` of `common.ts`, not under `src/`) joining the destination
account and the memo into the effective destination address. -/
def ADDRESS_SEPARATOR : String := "$"

/-- The external collaborators of one tick: the chain client (account history
at a sequence number, the last irreversible block fetched once at tick start,
block timestamps), the Asset Directory, the address-format validator
(`isSteemAddress` of `common.ts`, not under `src/`, kept abstract), and the
wall clock for `new Date()`. -/
structure Env where
  accountHistory : Nat → Option Action
  last_irreversible_block_num : Nat
  assets : String → Option Asset
  isSteemAddress : String → Bool
  blockTimestamp : Nat → Nat
  now : Nat

/-- The persistent state the job reads and writes: the checkpoint row, the
two Mongo collections of the balance repository, the history ledger, and the
operation ledger (rows, planned actions per operation, transaction-id
index). -/
structure State where
  params : Option ParamsRow
  balances : List BalanceEntity
  observed : List String
  histories : List HistoryEntity
  operations : List Operation
  opActions : List (String × List OperationAction)
  txToOp : List (String × String)
deriving DecidableEq

/-- `BalanceRepository.isObservable`: whether the address is present in the
`SteemBalanceAddresses` collection. -/
def isObservable (st : State) (address : String) : Bool :=
  st.observed.contains address

/-- The `$set` document of `BalanceRepository.upsert` applied to an existing
document: every field but `IsCancelled` is overwritten. -/
def balanceSet (address assetId operationOrTxId : String)
    (amount amountInBaseUnit : Rat) (block : Nat) (obs : Bool)
    (e : BalanceEntity) : BalanceEntity :=
  { e with Address := address, AssetId := assetId,
           OperationOrTxId := operationOrTxId, Amount := amount,
           AmountInBaseUnit := amountInBaseUnit, Block := block,
           IsObservable := obs }

/-- Mongo `updateOne(filter, { $set: ... }, { upsert: true })` on a
collection: apply the `$set` to the documents matching the filter, or insert
the `$set` applied to a blank document (absent fields at their defaults) when
none matches. -/
def mongoUpdateOne {α : Type} (p : α → Bool) (setFn : α → α) (blank : α)
    (l : List α) : List α :=
  if l.any p then l.map (fun e => if p e then setFn e else e)
  else l ++ [setFn blank]

/-- A balance document none of whose fields has been set yet (`IsCancelled`
and `IsObservable` absent model as `false`). -/
def blankBalance : BalanceEntity :=
  { Address := "", AssetId := "", OperationOrTxId := "", Amount := 0,
    AmountInBaseUnit := 0, Block := 0, IsCancelled := false, IsObservable := false }

/-- `BalanceRepository.upsert` (`part_000`, lines 58–68): computes the
composite `_id`, reads the observability of the address at write time, and
`updateOne`-with-upsert's the `$set` document into the balance collection. -/
def balanceUpsert (st : State) (address assetId operationOrTxId : String)
    (amount amountInBaseUnit : Rat) (block : Nat) : State :=
  let obs := isObservable st address
  { st with balances := (mongoUpdateOne
      (sameBalanceId address assetId operationOrTxId)
      (balanceSet address assetId operationOrTxId amount amountInBaseUnit block obs)
      blankBalance st.balances) }

/-- `BalanceRepository.get(address, assetId)` (`part_000`, lines 86–91): match
the address/asset pair over non-cancelled documents, then aggregate — sum of
`Amount`, sum of `AmountInBaseUnit`, max of `Block`; `none` when no document
matches (the empty aggregation has no group). -/
def getBalance (st : State) (address assetId : String) : Option (Rat × Rat × Nat) :=
  let m := st.balances.filter (fun e =>
    e.Address == address && e.AssetId == assetId && !e.IsCancelled)
  if m.isEmpty then none
  else some (m.foldl (fun a e => a + e.Amount) 0,
             m.foldl (fun a e => a + e.AmountInBaseUnit) 0,
             m.foldl (fun a e => max a e.Block) 0)

/-- One output row of the grouped balance aggregation. -/
structure AggRow where
  Address : String
  AssetId : String
  Amount : Rat
  AmountInBaseUnit : Rat
  Block : Nat
deriving DecidableEq

/-- The `(Address, AssetId)` group keys of a document list in first-occurrence
order (Mongo leaves the `$group` output order unspecified; the embedding fixes
this deterministic one). -/
def groupKeys (l : List BalanceEntity) : List (String × String) :=
  l.foldl (fun acc e =>
    if acc.contains (e.Address, e.AssetId) then acc else acc ++ [(e.Address, e.AssetId)]) []

/-- Aggregate the documents of one group key. -/
def aggRowOf (l : List BalanceEntity) (k : String × String) : AggRow :=
  let g := l.filter (fun e => e.Address == k.1 && e.AssetId == k.2)
  { Address := k.1, AssetId := k.2,
    Amount := g.foldl (fun a e => a + e.Amount) 0,
    AmountInBaseUnit := g.foldl (fun a e => a + e.AmountInBaseUnit) 0,
    Block := g.foldl (fun a e => max a e.Block) 0 }

/-- The grouped rows of the paginated aggregation (`part_000`, lines 95–97):
non-cancelled, observable documents grouped by `(Address, AssetId)` with the
same sums/max as the single-pair query. -/
def groupedObservable (st : State) : List AggRow :=
  let l := st.balances.filter (fun e => !e.IsCancelled && e.IsObservable)
  (groupKeys l).map (aggRowOf l)

/-- `parseInt(continuation) || 0`: the numeric value of the continuation
token, `0` when the token is absent. -/
def skipOf (continuation : Option String) : Nat :=
  match continuation with
  | none => 0
  | some s => parseIntD s

/-- `BalanceRepository.get(take, continuation)` (`part_000`, lines 92–105):
`skip` is `parseInt(continuation) || 0`; the page is `$skip skip` then
`$limit take` over the grouped rows; the continuation token is `null` when
fewer than `take` rows came back, else the decimal string of `skip + take`. -/
def getPaged (st : State) («take» : Nat) (continuation : Option String) :
    List AggRow × Option String :=
  let skip := skipOf continuation
  let rows := groupedObservable st
  let page := (rows.drop skip).take «take»
  (page, if page.length < «take» then none else some (natToDecString (skip + «take»)))

/-- Repeated paginated reads: request a page, then follow the returned
continuation token while one is returned; `fuel` bounds the number of
requests (the model's recursion measure). -/
def paginateAll (st : State) («take» : Nat) : Nat → Option String → List AggRow
  | 0, _ => []
  | fuel + 1, continuation =>
    let r := getPaged st «take» continuation
    match r.2 with
    | none => r.1
    | some t => r.1 ++ paginateAll st «take» fuel (some t)

/-- `OperationRepository.getOperationIdByTxId`: the operation id indexed by an
on-chain transaction id, when the transaction belongs to an Operation.
Modelled from the spec: `operations.ts` is not under `src/`. -/
def getOperationIdByTxId (st : State) (txId : String) : Option String :=
  (st.txToOp.find? (fun p => p.1 == txId)).map (fun p => p.2)

/-- `OperationRepository.getActions`: the planned actions of an Operation.
Modelled from the spec: `operations.ts` is not under `src/`. -/
def getActions (st : State) (operationId : String) : List OperationAction :=
  ((st.opActions.find? (fun p => p.1 == operationId)).map (fun p => p.2)).getD []

/-- `OperationRepository.get`: the Operation row with the given id. Modelled
from the spec: `operations.ts` is not under `src/`. -/
def getOperation (st : State) (operationId : String) : Option Operation :=
  st.operations.find? (fun op => op.OperationId == operationId)

/-- `OperationRepository.update`: merge the given fields into the Operation
row. Modelled from the spec: `operations.ts` is not under `src/`. -/
def updateOperation (st : State) (operationId : String) (u : OperationUpdate) : State :=
  { st with operations := st.operations.map (fun op =>
      if op.OperationId == operationId then applyOperationUpdate op u else op) }

/-- `OperationRepository.geOperationIdByExpiryTime`: ids of the Operations
whose expiry time lies in the half-open window `(tFrom, tTo]`. Modelled from
the spec: `operations.ts` is not under `src/`. -/
def geOperationIdByExpiryTime (st : State) (tFrom tTo : Nat) : List String :=
  (st.operations.filter (fun op =>
    decide (tFrom < op.ExpiryTime) && decide (op.ExpiryTime ≤ tTo))).map
    (fun op => op.OperationId)

/-- `HistoryRepository.upsert`: overwrite-or-insert keyed by
`(txId, actionId)`. Modelled from the spec: `history.ts` is not under
`src/`. -/
def historyUpsert (st : State) (fromAddress toAddress assetId : String)
    (amount amountInBaseUnit : Rat) (block blockTime : Nat)
    (txId actionId : String) (operationId : Option String) : State :=
  let entry : HistoryEntity :=
    { FromAddress := fromAddress, ToAddress := toAddress, AssetId := assetId,
      Amount := amount, AmountInBaseUnit := amountInBaseUnit, Block := block,
      BlockTime := blockTime, TxId := txId, ActionId := actionId,
      OperationId := operationId }
  { st with histories := (mongoUpdateOne
      (fun h => h.TxId == txId && h.ActionId == actionId) (fun _ => entry) entry
      st.histories) }

/-- `ParamsRepository.upsert({ nextActionSequence })` as issued by the action
loop (`part_001`, lines 138–140). -/
def writeParamsNextSeq (n : Nat) (st : State) : State :=
  { st with params := some (paramsUpsert st.params
      { nextActionSequence := some n, lastProcessedIrreversibleBlockTime := none }) }

/-- `ParamsRepository.upsert({ lastProcessedIrreversibleBlockTime })` as
issued by the expiry sweep (`part_001`, lines 178–180). -/
def writeParamsLastTime (t : Nat) (st : State) : State :=
  { st with params := some (paramsUpsert st.params
      { nextActionSequence := none, lastProcessedIrreversibleBlockTime := some t }) }

/-- The effective destination of an external transfer (`part_001`, lines
104–106): `to + ADDRESS_SEPARATOR + memo` when a memo is present. -/
def destinationOf (transfer : TransferPayload) : String :=
  if transfer.memo ≠ "" then transfer.«to» ++ ADDRESS_SEPARATOR ++ transfer.memo
  else transfer.«to»

/-- The update object `{ completionTime: new Date(), blockTime, block }` the
internal path passes to `OperationRepository.update` (`part_001`, line 89). -/
def completionUpdate (now blockTime block : Nat) : OperationUpdate :=
  { completionTime := some now, blockTime := some blockTime, block := some block,
    errorCode := none, error := none, failTime := none }

/-- The internal path's replay loop (`part_001`, lines 70–86): for every
planned action of the Operation, record a balance debit of the sender
(negated amounts), a balance credit of the recipient, and one history entry
keyed by the planned action's row key. -/
def replayOperationActions (operationId assetId : String) (block blockTime : Nat)
    (txId : String) (operationActions : List OperationAction) (st : State) : State :=
  operationActions.foldl (fun s act =>
    let s := balanceUpsert s act.FromAddress assetId operationId
      (-act.Amount) (-act.AmountInBaseUnit) block
    let s := balanceUpsert s act.ToAddress assetId operationId
      act.Amount act.AmountInBaseUnit block
    historyUpsert s act.FromAddress act.ToAddress assetId
      act.Amount act.AmountInBaseUnit block blockTime txId act.RowKey
      (some operationId)) st

/-- The body of one loop iteration of `handleActions` (`part_001`, lines
45–132) on an action already known to be irreversible: classify the action
and perform the resulting ledger writes. `none` models the TypeScript runtime
error thrown when the transaction-id index names an Operation that does not
exist (`operation.isCompleted()` on `null`); it aborts the tick. -/
def applyAction (env : Env) (seq : Nat) (a : Action) (st : State) : Option State :=
  match a.op with
  | ActionOp.other _ => some st
  | ActionOp.transfer transfer =>
    let block := a.block * 10
    let blockTime := a.timestamp
    let txId := a.trx_id
    let actionId := natToDecString seq
    match getOperationIdByTxId st txId with
    | some operationId =>
      let operationActions := getActions st operationId
      match getOperation st operationId with
      | none => none
      | some operation =>
        if operation.isCompleted then some st
        else
          let st1 := replayOperationActions operationId operation.AssetId block blockTime
            txId operationActions st
          some (updateOperation st1 operationId (completionUpdate env.now blockTime block))
    | none =>
      let parts := splitAmount transfer.amount
      let value := parseFloatModel parts.1
      match parts.2.bind env.assets with
      | some asset =>
        let assetId := asset.AssetId
        let valueInBaseUnit := asset.toBaseUnit value
        let dest := destinationOf transfer
        if env.isSteemAddress dest then
          let s := historyUpsert st transfer.sender dest assetId value valueInBaseUnit
            block blockTime txId actionId none
          let s := balanceUpsert s transfer.sender assetId txId (-value)
            (-valueInBaseUnit) block
          let s := balanceUpsert s dest assetId txId value valueInBaseUnit block
          some s
        else some st
      | none => some st

/-- One successful loop iteration including the checkpoint write that follows
it (`part_001`, lines 134–140): apply the action, then increment and persist
`nextActionSequence`. -/
def stepState (env : Env) (seq : Nat) (a : Action) (st : State) : Option State :=
  (applyAction env seq a st).map (writeParamsNextSeq (seq + 1))

/-- The result of one `handleActions` tick: normal completion (the returned
`last_irreversible_block_num`, the sequence the loop stopped at, the final
state), an aborted tick (a thrown error), or fuel exhaustion (model
artifact — the real loop runs as long as confirmed actions exist). -/
inductive TickResult where
  | done : Nat → Nat → State → TickResult
  | fault : TickResult
  | outOfFuel : TickResult
deriving DecidableEq

/-- The `while (true)` loop of `handleActions` (`part_001`, lines 39–144):
stop — returning normally — when no action exists at the current sequence or
the action's block is not yet irreversible; otherwise apply the action,
persist the incremented checkpoint, and continue with the next sequence. -/
def handleLoop (env : Env) : Nat → Nat → State → TickResult
  | 0, _, _ => TickResult.outOfFuel
  | fuel + 1, seq, st =>
    match env.accountHistory seq with
    | some a =>
      if a.block ≤ env.last_irreversible_block_num then
        match stepState env seq a st with
        | some st1 => handleLoop env fuel (seq + 1) st1
        | none => TickResult.fault
      else TickResult.done env.last_irreversible_block_num seq st
    | none => TickResult.done env.last_irreversible_block_num seq st

/-- `SteemService.handleActions` (`part_001`, lines 33–147): load the
checkpoint, start the loop at `NextActionSequence` (0 when the row or the
field is absent), and return `last_irreversible_block_num` fetched once at
the start of the tick. -/
def handleActions (env : Env) (st : State) (fuel : Nat) : TickResult :=
  handleLoop env fuel ((st.params.bind (fun p => p.NextActionSequence)).getD 0) st

/-- The fields `handleExpired` writes when failing an expired Operation
(`part_001`, lines 168–172). -/
def failUpdate (now : Nat) : OperationUpdate :=
  { completionTime := none, blockTime := none, block := none,
    errorCode := some ErrorCode.buildingShouldBeRepeated,
    error := some "Transaction expired", failTime := some now }

/-- One pass of the expiry loop body (`part_001`, lines 164–174): re-read the
Operation and fail it — with the expiry error code and a fail time — only when
it is still neither completed nor failed. -/
def sweepStep (now : Nat) (s : State) (opId : String) : State :=
  match getOperation s opId with
  | some operation =>
    if !operation.isCompleted && !operation.isFailed then
      updateOperation s operation.OperationId (failUpdate now)
    else s
  | none => s

/-- The expiry loop over the presumably-expired operation ids. -/
def sweepExpired (now : Nat) (ids : List String) (st : State) : State :=
  ids.foldl (sweepStep now) st

/-- `SteemService.handleExpired` (`part_001`, lines 149–181): read the
checkpointed lower time bound (epoch 0 when absent), obtain the timestamp of
the given block, fail every presumably-expired Operation that is neither
completed nor failed, and persist the new time bound. -/
def handleExpired (env : Env) (lastActionIrreversibleBlockNumber : Nat) (st : State) : State :=
  let lastProcessedIrreversibleBlockTime :=
    (st.params.bind (fun p => p.LastProcessedIrreversibleBlockTime)).getD 0
  let lastActionIrreversibleBlockTime := env.blockTimestamp lastActionIrreversibleBlockNumber
  let presumablyExpired := geOperationIdByExpiryTime st
    lastProcessedIrreversibleBlockTime lastActionIrreversibleBlockTime
  writeParamsLastTime lastActionIrreversibleBlockTime
    (sweepExpired env.now presumablyExpired st)

/-! ### Concrete inputs used by the example and witness theorems -/

/-- An environment whose Asset Directory resolves `STEEM` to asset id `1`
with base-unit factor 1000 and which accepts every destination address. -/
def envSTEEM : Env :=
  { accountHistory := fun _ => none,
    last_irreversible_block_num := 100,
    assets := fun s => if s = "STEEM" then some { AssetId := "1", Multiplier := 1000 } else none,
    isSteemAddress := fun _ => true,
    blockTimestamp := fun _ => 0,
    now := 0 }

/-- The transfer of 10.5 STEEM from `A` to `B` with no memo in transaction
`T1`, observed in block 50 at sequence 7. -/
def actionT1 : Action :=
  { block := 50, timestamp := 1000, trx_id := "T1",
    op := ActionOp.transfer { sender := "A", «to» := "B", amount := "10.5 STEEM", memo := "" } }

/-- A state with empty ledgers and no checkpoint. -/
def emptyState : State :=
  { params := none, balances := [], observed := [], histories := [],
    operations := [], opActions := [], txToOp := [] }

/-- A concrete state holding one completed Operation `op1` indexed by
transaction `T1`, with one planned action. -/
def stCompleted : State :=
  { params := none, balances := [], observed := [], histories := [],
    operations := [
      { OperationId := "op1", AssetId := "1", ExpiryTime := 50,
        CompletionTime := some 5, FailTime := none, BlockTime := some 4,
        Block := some 40, errorCode := none, error := none }],
    opActions := [("op1", [
      { FromAddress := "A", ToAddress := "B", Amount := 3,
        AmountInBaseUnit := 3000, RowKey := "r1" }])],
    txToOp := [("T1", "op1")] }

/-- A concrete state holding one pending Operation `op1` indexed by
transaction `T1`, with one planned action. -/
def stPending : State :=
  { params := none, balances := [], observed := [], histories := [],
    operations := [
      { OperationId := "op1", AssetId := "1", ExpiryTime := 50,
        CompletionTime := none, FailTime := none, BlockTime := none,
        Block := none, errorCode := none, error := none }],
    opActions := [("op1", [
      { FromAddress := "A", ToAddress := "B", Amount := 3,
        AmountInBaseUnit := 3000, RowKey := "r1" }])],
    txToOp := [("T1", "op1")] }

/-- The pending Operation stored in `stPending`. -/
def opPending : Operation :=
  { OperationId := "op1", AssetId := "1", ExpiryTime := 50,
    CompletionTime := none, FailTime := none, BlockTime := none,
    Block := none, errorCode := none, error := none }

/-- A non-transfer action at block 60. -/
def actionOther : Action :=
  { block := 60, timestamp := 2000, trx_id := "T9",
    op := ActionOp.other "claim_reward_balance" }

/-- An environment for the expiry sweep: block timestamps are 500, the wall
clock reads 77. -/
def envExp : Env :=
  { accountHistory := fun _ => none, last_irreversible_block_num := 100,
    assets := fun _ => none, isSteemAddress := fun _ => true,
    blockTimestamp := fun _ => 500, now := 77 }

/-- Three Operations: pending in the expiry window, completed in the window,
pending outside the window. -/
def stExp : State :=
  { params := none, balances := [], observed := [], histories := [],
    operations := [
      { OperationId := "opA", AssetId := "1", ExpiryTime := 300,
        CompletionTime := none, FailTime := none, BlockTime := none,
        Block := none, errorCode := none, error := none },
      { OperationId := "opB", AssetId := "1", ExpiryTime := 200,
        CompletionTime := some 9, FailTime := none, BlockTime := none,
        Block := none, errorCode := none, error := none },
      { OperationId := "opC", AssetId := "1", ExpiryTime := 900,
        CompletionTime := none, FailTime := none, BlockTime := none,
        Block := none, errorCode := none, error := none }],
    opActions := [], txToOp := [] }

/-- A state with two observable balance entries under distinct group keys. -/
def stPage : State :=
  { params := none,
    balances := [
      { Address := "A", AssetId := "1", OperationOrTxId := "T1", Amount := 1,
        AmountInBaseUnit := 100, Block := 10, IsCancelled := false, IsObservable := true },
      { Address := "B", AssetId := "1", OperationOrTxId := "T2", Amount := 2,
        AmountInBaseUnit := 200, Block := 20, IsCancelled := false, IsObservable := true }],
    observed := ["A", "B"], histories := [], operations := [], opActions := [],
    txToOp := [] }

/-! ### Helper lemmas -/

theorem sameBalanceId_balanceSet (address assetId operationOrTxId : String)
    (am ab : Rat) (blk : Nat) (o : Bool) (e : BalanceEntity) :
    sameBalanceId address assetId operationOrTxId
      (balanceSet address assetId operationOrTxId am ab blk o e) = true := by
  simp [sameBalanceId, balanceSet]

theorem balanceSet_balanceSet (address assetId operationOrTxId : String)
    (am ab : Rat) (blk : Nat) (o : Bool) (e : BalanceEntity) :
    balanceSet address assetId operationOrTxId am ab blk o
      (balanceSet address assetId operationOrTxId am ab blk o e)
    = balanceSet address assetId operationOrTxId am ab blk o e := by
  cases e
  rfl

theorem any_map_of_pred_inv {α : Type} (p : α → Bool) (f : α → α)
    (hf : ∀ e, p (f e) = p e) (l : List α) : (l.map f).any p = l.any p := by
  induction l with
  | nil => rfl
  | cons e t ih => simp [hf, ih]

theorem mongoUpdateOne_idem {α : Type} (p : α → Bool) (setFn : α → α) (blank : α)
    (l : List α) (hpset : ∀ e, p (setFn e) = true)
    (hsetset : ∀ e, setFn (setFn e) = setFn e) :
    mongoUpdateOne p setFn blank (mongoUpdateOne p setFn blank l)
      = mongoUpdateOne p setFn blank l := by
  have hf : ∀ e, p (if p e then setFn e else e) = p e := by
    intro e
    by_cases h : p e <;> simp [h, hpset]
  by_cases h : l.any p
  · simp only [mongoUpdateOne, h, if_true, any_map_of_pred_inv p _ hf, List.map_map]
    apply List.map_congr_left
    intro e _
    by_cases he : p e
    · simp [Function.comp, he, hpset, hsetset]
    · simp [Function.comp, he]
  · have hmem : ∀ e ∈ l, p e = false := by
      intro e he
      exact Bool.not_eq_true _ ▸ eq_false_of_ne_true
        (List.any_eq_false.mp (eq_false_of_ne_true h) e he)
    have hany2 : (l ++ [setFn blank]).any p = true := by
      simp [List.any_append, hpset]
    simp only [mongoUpdateOne, h, Bool.false_eq_true, if_false, hany2, if_true,
      List.map_append]
    congr 1
    · have hid : ∀ e ∈ l, (if p e then setFn e else e) = id e := by
        intro e he
        simp [hmem e he]
      rw [List.map_congr_left hid, List.map_id]
    · simp [hpset, hsetset]

/-! ### C4 — idempotent balance upsert -/

/-- C4: calling `BalanceRepository.upsert` twice with the same
`(address, assetId, operationOrTxId, amount, amountInBaseUnit, block)` leaves
the balance store in the same state as calling it once — the entry with the
composite id is overwritten, not duplicated — so the aggregated balance
returned by `get(address, assetId)` (sum of `Amount` and `AmountInBaseUnit`,
max of `Block` over non-cancelled entries) is unchanged by the second call. -/
theorem balance_upsert_idempotent (st : State)
    (address assetId operationOrTxId : String) (amount amountInBaseUnit : Rat)
    (block : Nat) :
    balanceUpsert (balanceUpsert st address assetId operationOrTxId amount amountInBaseUnit block)
        address assetId operationOrTxId amount amountInBaseUnit block
      = balanceUpsert st address assetId operationOrTxId amount amountInBaseUnit block
    ∧ ∀ a b : String,
        getBalance (balanceUpsert
            (balanceUpsert st address assetId operationOrTxId amount amountInBaseUnit block)
            address assetId operationOrTxId amount amountInBaseUnit block) a b
          = getBalance (balanceUpsert st address assetId operationOrTxId
              amount amountInBaseUnit block) a b := by
  have main : balanceUpsert
      (balanceUpsert st address assetId operationOrTxId amount amountInBaseUnit block)
        address assetId operationOrTxId amount amountInBaseUnit block
      = balanceUpsert st address assetId operationOrTxId amount amountInBaseUnit block := by
    simp only [balanceUpsert, isObservable]
    exact congrArg (fun l => { st with balances := l })
      (mongoUpdateOne_idem _ _ _ _
        (fun e => sameBalanceId_balanceSet address assetId operationOrTxId amount
          amountInBaseUnit block (st.observed.contains address) e)
        (fun e => balanceSet_balanceSet address assetId operationOrTxId amount
          amountInBaseUnit block (st.observed.contains address) e))
  exact ⟨main, fun a b => by rw [main]⟩

/-! ### C10 — checkpoint writes leave the other field unchanged -/

/-- C10: `handleActions` persists the checkpoint with only
`nextActionSequence` set and `handleExpired` with only
`lastProcessedIrreversibleBlockTime` set, both through the same
insert-or-merge upsert that leaves the unset field undefined on the written
entity; each write leaves the other checkpoint field's stored value
unchanged. -/
theorem checkpoint_field_frame (st : State) (n t : Nat) :
    writeParamsNextSeq n st = { st with params := some (paramsUpsert st.params
      { nextActionSequence := some n, lastProcessedIrreversibleBlockTime := none }) }
    ∧ writeParamsLastTime t st = { st with params := some (paramsUpsert st.params
      { nextActionSequence := none, lastProcessedIrreversibleBlockTime := some t }) }
    ∧ paramsUpsert = insertOrMerge
    ∧ ((writeParamsNextSeq n st).params.bind
        (fun p => p.LastProcessedIrreversibleBlockTime))
      = (st.params.bind (fun p => p.LastProcessedIrreversibleBlockTime))
    ∧ ((writeParamsLastTime t st).params.bind (fun p => p.NextActionSequence))
      = (st.params.bind (fun p => p.NextActionSequence)) := by
  refine ⟨rfl, rfl, rfl, ?_, ?_⟩ <;>
    cases h : st.params <;>
      simp [writeParamsNextSeq, writeParamsLastTime, paramsUpsert, insertOrMerge, h]

/-! ### C8 — concrete external transfer example -/




/-- C8: for the external transfer of "10.5 STEEM" from `A` to `B` with no
memo in transaction `T1`, with `STEEM` resolving to asset id 1 and base-unit
factor 1000, `handleActions` writes BalanceEntry(A, 1, T1) with amount −10.5
and base-unit amount −10500, BalanceEntry(B, 1, T1) with amount 10.5 and
base-unit amount 10500, and exactly one HistoryEntry keyed by
`(T1, actionId)`. -/
theorem external_transfer_example :
    applyAction envSTEEM 7 actionT1 emptyState = some
      { params := none,
        balances := [
          { Address := "A", AssetId := "1", OperationOrTxId := "T1",
            Amount := -(10.5 : Rat), AmountInBaseUnit := -(10500 : Rat), Block := 500,
            IsCancelled := false, IsObservable := false },
          { Address := "B", AssetId := "1", OperationOrTxId := "T1",
            Amount := (10.5 : Rat), AmountInBaseUnit := (10500 : Rat), Block := 500,
            IsCancelled := false, IsObservable := false }],
        observed := [],
        histories := [
          { FromAddress := "A", ToAddress := "B", AssetId := "1",
            Amount := (10.5 : Rat), AmountInBaseUnit := (10500 : Rat), Block := 500,
            BlockTime := 1000, TxId := "T1", ActionId := "7", OperationId := none }],
        operations := [], opActions := [], txToOp := [] } := by
  have hsplit : splitAmount "10.5 STEEM" = ("10.5", some "STEEM") := by decide
  have hval : parseFloatModel "10.5" = 21/2 := by with_unfolding_all decide
  have hnat : natToDecString 7 = "7" := by decide
  simp [applyAction, actionT1, envSTEEM, emptyState, hsplit, hval, hnat,
    getOperationIdByTxId, destinationOf, ADDRESS_SEPARATOR, Asset.toBaseUnit,
    historyUpsert, balanceUpsert, mongoUpdateOne, isObservable, balanceSet,
    sameBalanceId, balanceId, blankBalance]
  norm_num

/-! ### C2 — completed Operations are never re-applied -/

/-- C2: re-processing a transfer action whose transaction id matches an
already-completed Operation writes no balance entries, no history entries,
and does not modify the Operation — the state is unchanged — while the
checkpoint still advances past the action (`nextActionSequence = seq + 1`);
a terminal Operation is never re-applied. -/
theorem completed_operation_short_circuit (env : Env) (seq : Nat) (a : Action)
    (st : State) (t : TransferPayload) (operationId : String) (operation : Operation)
    (hop : a.op = ActionOp.transfer t)
    (hlookup : getOperationIdByTxId st a.trx_id = some operationId)
    (hget : getOperation st operationId = some operation)
    (hcompleted : operation.isCompleted = true) :
    applyAction env seq a st = some st
    ∧ stepState env seq a st = some (writeParamsNextSeq (seq + 1) st)
    ∧ ((writeParamsNextSeq (seq + 1) st).params.bind (fun p => p.NextActionSequence))
        = some (seq + 1) := by
  have h1 : applyAction env seq a st = some st := by
    simp only [applyAction, hop, hlookup, hget, hcompleted, if_true]
  refine ⟨h1, ?_, ?_⟩
  · simp [stepState, h1]
  · cases hp : st.params <;>
      simp [writeParamsNextSeq, paramsUpsert, insertOrMerge, hp]


/-- Witness for `completed_operation_short_circuit` at a concrete completed
Operation. -/
theorem completed_operation_short_circuit_witness :
    applyAction envSTEEM 4 actionT1 stCompleted = some stCompleted
    ∧ stepState envSTEEM 4 actionT1 stCompleted
        = some (writeParamsNextSeq 5 stCompleted)
    ∧ ((writeParamsNextSeq 5 stCompleted).params.bind
        (fun p => p.NextActionSequence)) = some 5 :=
  completed_operation_short_circuit envSTEEM 4 actionT1 stCompleted
    { sender := "A", «to» := "B", amount := "10.5 STEEM", memo := "" } "op1"
    { OperationId := "op1", AssetId := "1", ExpiryTime := 50,
      CompletionTime := some 5, FailTime := none, BlockTime := some 4,
      Block := some 40, errorCode := none, error := none }
    rfl rfl rfl rfl

/-! ### C3 — internal replay helper lemmas -/

theorem applyOperationUpdate_OperationId (op : Operation) (u : OperationUpdate) :
    (applyOperationUpdate op u).OperationId = op.OperationId := rfl

theorem find?_map_updateIf (l : List Operation) (id : String) (u : OperationUpdate) :
    (l.map (fun op => if op.OperationId == id then applyOperationUpdate op u else op)).find?
        (fun op => op.OperationId == id)
      = (l.find? (fun op => op.OperationId == id)).map
          (fun op => applyOperationUpdate op u) := by
  induction l with
  | nil => rfl
  | cons hd tl ih =>
    simp only [List.map_cons]
    by_cases hh : (hd.OperationId == id) = true
    · rw [List.find?_cons, List.find?_cons, hh]
      simp [applyOperationUpdate_OperationId, hh]
    · have hh0 : (hd.OperationId == id) = false := by
        simpa using hh
      rw [List.find?_cons, List.find?_cons, hh0]
      simp only [Bool.false_eq_true, if_false, hh0]
      exact ih

theorem getOperation_updateOperation (s : State) (id : String) (u : OperationUpdate) :
    getOperation (updateOperation s id u) id
      = (getOperation s id).map (fun op => applyOperationUpdate op u) := by
  simp only [getOperation, updateOperation]
  exact find?_map_updateIf s.operations id u

theorem replayOperationActions_operations (operationId assetId : String)
    (blk bt : Nat) (txId : String) (acts : List OperationAction) :
    ∀ st : State,
      (replayOperationActions operationId assetId blk bt txId acts st).operations
        = st.operations := by
  induction acts with
  | nil => intro st; rfl
  | cons a t ih => intro st; exact (ih _).trans rfl

theorem any_mongoUpdateOne_of_any {α : Type} (p q : α → Bool) (setFn : α → α)
    (blank : α) (l : List α)
    (hkey : ∀ e, p e = true → q e = true → p (setFn e) = true)
    (h : l.any p = true) : (mongoUpdateOne q setFn blank l).any p = true := by
  rcases List.any_eq_true.mp h with ⟨e, he, hpe⟩
  unfold mongoUpdateOne
  by_cases hq : l.any q
  · simp only [hq, if_true]
    apply List.any_eq_true.mpr
    by_cases hqe : q e
    · exact ⟨_, List.mem_map_of_mem _ he, by simp [hqe, hkey e hpe hqe]⟩
    · exact ⟨_, List.mem_map_of_mem _ he, by simp [hqe, hpe]⟩
  · have hq0 : l.any q = false := eq_false_of_ne_true hq
    simp only [hq0, Bool.false_eq_true, if_false, List.any_append, h, Bool.true_or]

theorem historyUpsert_key_present (st : State) (f t aId : String) (am ab : Rat)
    (blk bt : Nat) (txId actionId : String) (opId : Option String) :
    ((historyUpsert st f t aId am ab blk bt txId actionId opId).histories.any
      (fun h => h.TxId == txId && h.ActionId == actionId)) = true := by
  unfold historyUpsert mongoUpdateOne
  by_cases h : st.histories.any (fun h => h.TxId == txId && h.ActionId == actionId)
  · have hf : ∀ e : HistoryEntity,
        (fun h => h.TxId == txId && h.ActionId == actionId)
          (if h2 : True then e else e) = (fun h => h.TxId == txId && h.ActionId == actionId) e :=
      fun e => rfl
    simp only [h, if_true]
    rw [any_map_of_pred_inv]
    · exact h
    · intro e
      by_cases he : (e.TxId == txId && e.ActionId == actionId) <;> simp [he]
  · simp [h, List.any_append]

theorem balanceUpsert_key_present (st : State) (address assetId operationOrTxId : String)
    (am ab : Rat) (blk : Nat) :
    ((balanceUpsert st address assetId operationOrTxId am ab blk).balances.any
      (sameBalanceId address assetId operationOrTxId)) = true := by
  unfold balanceUpsert mongoUpdateOne
  by_cases h : st.balances.any (sameBalanceId address assetId operationOrTxId)
  · simp only [h, if_true]
    rw [any_map_of_pred_inv]
    · exact h
    · intro e
      by_cases he : sameBalanceId address assetId operationOrTxId e <;>
        simp [he, sameBalanceId_balanceSet]
  · simp [h, List.any_append, sameBalanceId_balanceSet]

theorem historyUpsert_key_preserved (st : State) (f t aId : String) (am ab : Rat)
    (blk bt : Nat) (txId actionId txId0 actionId0 : String) (opId : Option String)
    (h : st.histories.any (fun h => h.TxId == txId0 && h.ActionId == actionId0) = true) :
    ((historyUpsert st f t aId am ab blk bt txId actionId opId).histories.any
      (fun h => h.TxId == txId0 && h.ActionId == actionId0)) = true := by
  simp only [historyUpsert]
  apply any_mongoUpdateOne_of_any _ _ _ _ _ _ h
  intro e hpe hqe
  simp only [Bool.and_eq_true, beq_iff_eq] at hpe hqe ⊢
  exact ⟨hqe.1.symm.trans hpe.1, hqe.2.symm.trans hpe.2⟩

theorem balanceUpsert_key_preserved (st : State)
    (address assetId operationOrTxId a0 b0 c0 : String) (am ab : Rat) (blk : Nat)
    (h : st.balances.any (sameBalanceId a0 b0 c0) = true) :
    ((balanceUpsert st address assetId operationOrTxId am ab blk).balances.any
      (sameBalanceId a0 b0 c0)) = true := by
  simp only [balanceUpsert]
  apply any_mongoUpdateOne_of_any _ _ _ _ _ _ h
  intro e hpe hqe
  simp only [sameBalanceId, balanceSet, beq_iff_eq] at hpe hqe ⊢
  exact hqe.symm.trans hpe

theorem replay_preserves_history_key (operationId assetId : String) (blk bt : Nat)
    (txId : String) (acts : List OperationAction) (txId0 actionId0 : String) :
    ∀ st : State,
      st.histories.any (fun h => h.TxId == txId0 && h.ActionId == actionId0) = true →
      ((replayOperationActions operationId assetId blk bt txId acts st).histories.any
        (fun h => h.TxId == txId0 && h.ActionId == actionId0)) = true := by
  induction acts with
  | nil => intro st h; exact h
  | cons a t ih =>
    intro st h
    apply ih
    apply historyUpsert_key_preserved
    exact h

theorem replay_preserves_balance_key (operationId assetId : String) (blk bt : Nat)
    (txId : String) (acts : List OperationAction) (a0 b0 c0 : String) :
    ∀ st : State,
      st.balances.any (sameBalanceId a0 b0 c0) = true →
      ((replayOperationActions operationId assetId blk bt txId acts st).balances.any
        (sameBalanceId a0 b0 c0)) = true := by
  induction acts with
  | nil => intro st h; exact h
  | cons a t ih =>
    intro st h
    apply ih
    show ((historyUpsert _ _ _ _ _ _ _ _ _ _ _).balances.any _) = true
    exact balanceUpsert_key_preserved _ _ _ _ _ _ _ _ _ _
      (balanceUpsert_key_preserved _ _ _ _ _ _ _ _ _ _ h)

theorem replayOperationActions_cons (operationId assetId : String) (blk bt : Nat)
    (txId : String) (a : OperationAction) (t : List OperationAction) (st : State) :
    replayOperationActions operationId assetId blk bt txId (a :: t) st
      = replayOperationActions operationId assetId blk bt txId t
          (historyUpsert
            (balanceUpsert
              (balanceUpsert st a.FromAddress assetId operationId
                (-a.Amount) (-a.AmountInBaseUnit) blk)
              a.ToAddress assetId operationId a.Amount a.AmountInBaseUnit blk)
            a.FromAddress a.ToAddress assetId a.Amount a.AmountInBaseUnit blk bt txId
            a.RowKey (some operationId)) := rfl

theorem replay_history_present (operationId assetId : String) (blk bt : Nat)
    (txId : String) (acts : List OperationAction) :
    ∀ st : State, ∀ act ∈ acts,
      ((replayOperationActions operationId assetId blk bt txId acts st).histories.any
        (fun h => h.TxId == txId && h.ActionId == act.RowKey)) = true := by
  induction acts with
  | nil => intro st act hmem; cases hmem
  | cons a t ih =>
    intro st act hmem
    rcases List.mem_cons.mp hmem with rfl | hmem'
    · rw [replayOperationActions_cons]
      apply replay_preserves_history_key
      apply historyUpsert_key_present
    · rw [replayOperationActions_cons]
      exact ih _ act hmem'

theorem replay_balance_present (operationId assetId : String) (blk bt : Nat)
    (txId : String) (acts : List OperationAction) :
    ∀ st : State, ∀ act ∈ acts,
      ((replayOperationActions operationId assetId blk bt txId acts st).balances.any
          (sameBalanceId act.FromAddress assetId operationId)) = true
      ∧ ((replayOperationActions operationId assetId blk bt txId acts st).balances.any
          (sameBalanceId act.ToAddress assetId operationId)) = true := by
  induction acts with
  | nil => intro st act hmem; cases hmem
  | cons a t ih =>
    intro st act hmem
    rcases List.mem_cons.mp hmem with rfl | hmem'
    · rw [replayOperationActions_cons]
      constructor
      · apply replay_preserves_balance_key
        exact balanceUpsert_key_preserved _ act.ToAddress assetId operationId
          act.FromAddress assetId operationId act.Amount act.AmountInBaseUnit blk
          (balanceUpsert_key_present st act.FromAddress assetId operationId
            (-act.Amount) (-act.AmountInBaseUnit) blk)
      · apply replay_preserves_balance_key
        exact balanceUpsert_key_present _ act.ToAddress assetId operationId
          act.Amount act.AmountInBaseUnit blk
    · rw [replayOperationActions_cons]
      exact ih _ act hmem'

/-- C3: for a transfer whose transaction id matches a not-yet-completed
Operation, `handleActions` ignores the on-chain payload and replays the
planned OperationActions — per planned action one balance debit of the sender
(negated amount), one balance credit of the recipient, and one history
entry — and the completion update of the Operation is the last write of the
path: the replay itself leaves the operation rows unchanged, and the
completion write changes no balance or history entry. -/
theorem internal_replay_contract (env : Env) (seq : Nat) (a : Action) (st : State)
    (t : TransferPayload) (operationId : String) (operation : Operation)
    (hop : a.op = ActionOp.transfer t)
    (hlookup : getOperationIdByTxId st a.trx_id = some operationId)
    (hget : getOperation st operationId = some operation)
    (hpending : operation.isCompleted = false) :
    applyAction env seq a st = some (updateOperation
        (replayOperationActions operationId operation.AssetId (a.block * 10) a.timestamp
          a.trx_id (getActions st operationId) st)
        operationId (completionUpdate env.now a.timestamp (a.block * 10)))
    ∧ (replayOperationActions operationId operation.AssetId (a.block * 10) a.timestamp
        a.trx_id (getActions st operationId) st).operations = st.operations
    ∧ (∀ stF, applyAction env seq a st = some stF →
        getOperation stF operationId
            = some (applyOperationUpdate operation
                (completionUpdate env.now a.timestamp (a.block * 10)))
          ∧ (applyOperationUpdate operation
              (completionUpdate env.now a.timestamp (a.block * 10))).isCompleted = true
          ∧ stF.balances = (replayOperationActions operationId operation.AssetId
              (a.block * 10) a.timestamp a.trx_id (getActions st operationId) st).balances
          ∧ stF.histories = (replayOperationActions operationId operation.AssetId
              (a.block * 10) a.timestamp a.trx_id (getActions st operationId) st).histories
          ∧ (∀ act ∈ getActions st operationId,
              stF.histories.any
                  (fun h => h.TxId == a.trx_id && h.ActionId == act.RowKey) = true
              ∧ stF.balances.any
                  (sameBalanceId act.FromAddress operation.AssetId operationId) = true
              ∧ stF.balances.any
                  (sameBalanceId act.ToAddress operation.AssetId operationId) = true))
    ∧ (∀ t' : TransferPayload,
        applyAction env seq { a with op := ActionOp.transfer t' } st
          = applyAction env seq a st) := by
  have h1 : applyAction env seq a st = some (updateOperation
      (replayOperationActions operationId operation.AssetId (a.block * 10) a.timestamp
        a.trx_id (getActions st operationId) st)
      operationId (completionUpdate env.now a.timestamp (a.block * 10))) := by
    simp only [applyAction, hop, hlookup, hget, hpending, Bool.false_eq_true, if_false]
  refine ⟨h1, replayOperationActions_operations _ _ _ _ _ _ st, ?_, ?_⟩
  · intro stF hF
    have hsame : stF = updateOperation
        (replayOperationActions operationId operation.AssetId (a.block * 10) a.timestamp
          a.trx_id (getActions st operationId) st)
        operationId (completionUpdate env.now a.timestamp (a.block * 10)) := by
      exact Option.some.inj (hF.symm.trans h1)
    subst hsame
    refine ⟨?_, ?_, rfl, rfl, ?_⟩
    · rw [getOperation_updateOperation]
      have hR : getOperation (replayOperationActions operationId operation.AssetId
          (a.block * 10) a.timestamp a.trx_id (getActions st operationId) st) operationId
          = some operation := by
        unfold getOperation
        rw [replayOperationActions_operations]
        exact hget
      rw [hR]
      rfl
    · simp [applyOperationUpdate, completionUpdate, Operation.isCompleted, Option.orElse]
    · intro act hmem
      exact ⟨replay_history_present _ _ _ _ _ _ st act hmem,
        (replay_balance_present _ _ _ _ _ _ st act hmem).1,
        (replay_balance_present _ _ _ _ _ _ st act hmem).2⟩
  · intro t'
    rw [h1]
    simp only [applyAction, hlookup, hget, hpending, Bool.false_eq_true, if_false]



/-- Witness for `internal_replay_contract` at a concrete pending Operation. -/
theorem internal_replay_contract_witness :
    applyAction envSTEEM 4 actionT1 stPending = some (updateOperation
        (replayOperationActions "op1" opPending.AssetId (actionT1.block * 10)
          actionT1.timestamp actionT1.trx_id (getActions stPending "op1") stPending)
        "op1" (completionUpdate envSTEEM.now actionT1.timestamp (actionT1.block * 10)))
    ∧ (replayOperationActions "op1" opPending.AssetId (actionT1.block * 10)
        actionT1.timestamp actionT1.trx_id (getActions stPending "op1")
        stPending).operations = stPending.operations
    ∧ (∀ stF, applyAction envSTEEM 4 actionT1 stPending = some stF →
        getOperation stF "op1"
            = some (applyOperationUpdate opPending
                (completionUpdate envSTEEM.now actionT1.timestamp (actionT1.block * 10)))
          ∧ (applyOperationUpdate opPending
              (completionUpdate envSTEEM.now actionT1.timestamp
                (actionT1.block * 10))).isCompleted = true
          ∧ stF.balances = (replayOperationActions "op1" opPending.AssetId
              (actionT1.block * 10) actionT1.timestamp actionT1.trx_id
              (getActions stPending "op1") stPending).balances
          ∧ stF.histories = (replayOperationActions "op1" opPending.AssetId
              (actionT1.block * 10) actionT1.timestamp actionT1.trx_id
              (getActions stPending "op1") stPending).histories
          ∧ (∀ act ∈ getActions stPending "op1",
              stF.histories.any
                  (fun h => h.TxId == actionT1.trx_id && h.ActionId == act.RowKey) = true
              ∧ stF.balances.any
                  (sameBalanceId act.FromAddress opPending.AssetId "op1") = true
              ∧ stF.balances.any
                  (sameBalanceId act.ToAddress opPending.AssetId "op1") = true))
    ∧ (∀ t' : TransferPayload,
        applyAction envSTEEM 4 { actionT1 with op := ActionOp.transfer t' } stPending
          = applyAction envSTEEM 4 actionT1 stPending) :=
  internal_replay_contract envSTEEM 4 actionT1 stPending
    { sender := "A", «to» := "B", amount := "10.5 STEEM", memo := "" } "op1" opPending
    rfl rfl rfl rfl

/-! ### C6 — skipped actions still advance the checkpoint -/

/-- C6: for an irreversible action that is not a transfer, for an external
transfer whose asset symbol the Asset Directory cannot resolve, and for an
external transfer whose effective destination address fails validation,
`handleActions` performs no balance or history writes (the state is
unchanged), yet still increments and persists `nextActionSequence` past the
action, and the tick does not abort (the loop continues at `seq + 1`). -/
theorem skipped_actions_advance_checkpoint (env : Env) (seq : Nat) (a : Action)
    (st : State) (fuel : Nat)
    (h : (∃ name, a.op = ActionOp.other name)
      ∨ (∃ t : TransferPayload, a.op = ActionOp.transfer t
          ∧ getOperationIdByTxId st a.trx_id = none
          ∧ ((splitAmount t.amount).2.bind env.assets) = none)
      ∨ (∃ t : TransferPayload, a.op = ActionOp.transfer t
          ∧ getOperationIdByTxId st a.trx_id = none
          ∧ (∃ asset, ((splitAmount t.amount).2.bind env.assets) = some asset)
          ∧ env.isSteemAddress (destinationOf t) = false)) :
    applyAction env seq a st = some st
    ∧ stepState env seq a st = some (writeParamsNextSeq (seq + 1) st)
    ∧ ((writeParamsNextSeq (seq + 1) st).params.bind (fun p => p.NextActionSequence))
        = some (seq + 1)
    ∧ (env.accountHistory seq = some a → a.block ≤ env.last_irreversible_block_num →
        handleLoop env (fuel + 1) seq st
          = handleLoop env fuel (seq + 1) (writeParamsNextSeq (seq + 1) st)) := by
  have h1 : applyAction env seq a st = some st := by
    rcases h with ⟨name, hop⟩ | ⟨t, hop, hlookup, hasset⟩ | ⟨t, hop, hlookup, ⟨asset, hasset⟩, haddr⟩
    · simp only [applyAction, hop]
    · simp only [applyAction, hop, hlookup, hasset]
    · simp only [applyAction, hop, hlookup, hasset, haddr, Bool.false_eq_true, if_false]
  refine ⟨h1, by simp [stepState, h1], ?_, ?_⟩
  · cases hp : st.params <;>
      simp [writeParamsNextSeq, paramsUpsert, insertOrMerge, hp]
  · intro hhist hirr
    simp [handleLoop, hhist, hirr, stepState, h1]


/-- Witness for `skipped_actions_advance_checkpoint` on a concrete
non-transfer action. -/
theorem skipped_actions_advance_checkpoint_witness :
    applyAction envSTEEM 9 actionOther emptyState = some emptyState
    ∧ stepState envSTEEM 9 actionOther emptyState
        = some (writeParamsNextSeq 10 emptyState)
    ∧ ((writeParamsNextSeq 10 emptyState).params.bind (fun p => p.NextActionSequence))
        = some 10
    ∧ (envSTEEM.accountHistory 9 = some actionOther →
        actionOther.block ≤ envSTEEM.last_irreversible_block_num →
        handleLoop envSTEEM 3 9 emptyState
          = handleLoop envSTEEM 2 10 (writeParamsNextSeq 10 emptyState)) :=
  skipped_actions_advance_checkpoint envSTEEM 9 actionOther emptyState 2
    (Or.inl ⟨"claim_reward_balance", rfl⟩)

/-! ### C1 — the action intake loop -/

theorem handleLoop_done (env : Env) : ∀ (fuel seq : Nat) (st : State) (ret fs : Nat)
    (stF : State), handleLoop env fuel seq st = TickResult.done ret fs stF →
    ret = env.last_irreversible_block_num
    ∧ (∀ a, env.accountHistory fs = some a → env.last_irreversible_block_num < a.block) := by
  intro fuel
  induction fuel with
  | zero =>
    intro seq st ret fs stF h
    simp [handleLoop] at h
  | succ f ih =>
    intro seq st ret fs stF h
    simp only [handleLoop] at h
    cases hh : env.accountHistory seq with
    | none =>
      simp only [hh] at h
      simp only [TickResult.done.injEq] at h
      refine ⟨h.1.symm, ?_⟩
      intro a ha
      rw [← h.2.1, hh] at ha
      cases ha
    | some a =>
      simp only [hh] at h
      by_cases hirr : a.block ≤ env.last_irreversible_block_num
      · rw [if_pos hirr] at h
        cases hs : stepState env seq a st with
        | some st1 =>
          rw [hs] at h
          exact ih _ _ _ _ _ h
        | none =>
          rw [hs] at h
          cases h
      · rw [if_neg hirr] at h
        simp only [TickResult.done.injEq] at h
        refine ⟨h.1.symm, ?_⟩
        intro a' ha'
        rw [← h.2.1, hh] at ha'
        cases Option.some.inj ha'
        exact Nat.lt_of_not_le hirr

/-- C1: a `handleActions` tick loads the checkpoint and starts at
`NextActionSequence` (0 when absent), applies actions one at a time while one
exists at the current sequence and its block is within the
`last_irreversible_block_num` fetched once at the start of the tick —
persisting `nextActionSequence = seq + 1` before fetching the next action —
stops (normally, not as an error) exactly when no action exists at the final
sequence or its block exceeds that bound, and returns
`last_irreversible_block_num`. -/
theorem handleActions_loop_contract (env : Env) (st : State) (fuel ret fs : Nat)
    (stF : State) (h : handleActions env st fuel = TickResult.done ret fs stF) :
    ret = env.last_irreversible_block_num
    ∧ handleActions env st fuel
        = handleLoop env fuel ((st.params.bind (fun p => p.NextActionSequence)).getD 0) st
    ∧ (∀ a, env.accountHistory fs = some a → env.last_irreversible_block_num < a.block)
    ∧ (∀ (f seq : Nat) (st0 : State),
        (∀ a, env.accountHistory seq = some a →
          env.last_irreversible_block_num < a.block) →
        handleLoop env (f + 1) seq st0
          = TickResult.done env.last_irreversible_block_num seq st0)
    ∧ (∀ (f seq : Nat) (a : Action) (st0 st1 : State),
        env.accountHistory seq = some a →
        a.block ≤ env.last_irreversible_block_num →
        applyAction env seq a st0 = some st1 →
        handleLoop env (f + 1) seq st0
            = handleLoop env f (seq + 1) (writeParamsNextSeq (seq + 1) st1)
          ∧ ((writeParamsNextSeq (seq + 1) st1).params.bind
              (fun p => p.NextActionSequence)) = some (seq + 1)) := by
  have hdone := handleLoop_done env fuel
    ((st.params.bind (fun p => p.NextActionSequence)).getD 0) st ret fs stF h
  refine ⟨hdone.1, rfl, hdone.2, ?_, ?_⟩
  · intro f seq st0 hstop
    cases hh : env.accountHistory seq with
    | none => simp [handleLoop, hh]
    | some a =>
      have : env.last_irreversible_block_num < a.block := hstop a hh
      simp [handleLoop, hh, Nat.not_le_of_lt this]
  · intro f seq a st0 st1 hh hirr happly
    constructor
    · simp [handleLoop, hh, hirr, stepState, happly]
    · cases hp : st1.params <;>
        simp [writeParamsNextSeq, paramsUpsert, insertOrMerge, hp]

/-- Witness for `handleActions_loop_contract`: a tick over an empty action
stream stops immediately at sequence 0 and returns the irreversible block
number. -/
theorem handleActions_loop_contract_witness :
    100 = envSTEEM.last_irreversible_block_num
    ∧ handleActions envSTEEM emptyState 1
        = handleLoop envSTEEM 1
            ((emptyState.params.bind (fun p => p.NextActionSequence)).getD 0) emptyState
    ∧ (∀ a, envSTEEM.accountHistory 0 = some a →
        envSTEEM.last_irreversible_block_num < a.block)
    ∧ (∀ (f seq : Nat) (st0 : State),
        (∀ a, envSTEEM.accountHistory seq = some a →
          envSTEEM.last_irreversible_block_num < a.block) →
        handleLoop envSTEEM (f + 1) seq st0
          = TickResult.done envSTEEM.last_irreversible_block_num seq st0)
    ∧ (∀ (f seq : Nat) (a : Action) (st0 st1 : State),
        envSTEEM.accountHistory seq = some a →
        a.block ≤ envSTEEM.last_irreversible_block_num →
        applyAction envSTEEM seq a st0 = some st1 →
        handleLoop envSTEEM (f + 1) seq st0
            = handleLoop envSTEEM f (seq + 1) (writeParamsNextSeq (seq + 1) st1)
          ∧ ((writeParamsNextSeq (seq + 1) st1).params.bind
              (fun p => p.NextActionSequence)) = some (seq + 1)) :=
  handleActions_loop_contract envSTEEM emptyState 1 100 0 emptyState rfl

/-! ### C9 — ledger writes record ten times the chain block number -/

theorem mem_mongoUpdateOne {α : Type} (p : α → Bool) (setFn : α → α) (blank : α)
    (l : List α) (e : α) (h : e ∈ mongoUpdateOne p setFn blank l) :
    e ∈ l ∨ ∃ x, e = setFn x := by
  unfold mongoUpdateOne at h
  by_cases hq : l.any p
  · rw [if_pos hq] at h
    rcases List.mem_map.mp h with ⟨x, hx, rfl⟩
    by_cases hpx : p x
    · exact Or.inr ⟨x, by simp [hpx]⟩
    · left
      simpa [hpx] using hx
  · rw [if_neg hq] at h
    rcases List.mem_append.mp h with hx | hx
    · exact Or.inl hx
    · rcases List.mem_singleton.mp hx with rfl
      exact Or.inr ⟨blank, rfl⟩

theorem mem_balances_balanceUpsert (st : State) (address assetId operationOrTxId : String)
    (am ab : Rat) (blk : Nat) (e : BalanceEntity)
    (h : e ∈ (balanceUpsert st address assetId operationOrTxId am ab blk).balances) :
    e ∈ st.balances ∨ e.Block = blk := by
  simp only [balanceUpsert] at h
  rcases mem_mongoUpdateOne _ _ _ _ _ h with h1 | ⟨x, rfl⟩
  · exact Or.inl h1
  · exact Or.inr rfl

theorem mem_histories_historyUpsert (st : State) (f t aId : String) (am ab : Rat)
    (blk bt : Nat) (txId actionId : String) (opId : Option String) (e : HistoryEntity)
    (h : e ∈ (historyUpsert st f t aId am ab blk bt txId actionId opId).histories) :
    e ∈ st.histories ∨ e.Block = blk := by
  simp only [historyUpsert] at h
  rcases mem_mongoUpdateOne _ _ _ _ _ h with h1 | ⟨x, rfl⟩
  · exact Or.inl h1
  · exact Or.inr rfl

theorem replay_balances_block (operationId assetId : String) (blk bt : Nat)
    (txId : String) (acts : List OperationAction) :
    ∀ (st : State) (e : BalanceEntity),
      e ∈ (replayOperationActions operationId assetId blk bt txId acts st).balances →
      e ∈ st.balances ∨ e.Block = blk := by
  induction acts with
  | nil => intro st e h; exact Or.inl h
  | cons a t ih =>
    intro st e h
    rw [replayOperationActions_cons] at h
    rcases ih _ _ h with h1 | h2
    · rcases mem_balances_balanceUpsert _ _ _ _ _ _ _ _ h1 with h3 | h3
      · rcases mem_balances_balanceUpsert _ _ _ _ _ _ _ _ h3 with h4 | h4
        · exact Or.inl h4
        · exact Or.inr h4
      · exact Or.inr h3
    · exact Or.inr h2

theorem replay_histories_block (operationId assetId : String) (blk bt : Nat)
    (txId : String) (acts : List OperationAction) :
    ∀ (st : State) (e : HistoryEntity),
      e ∈ (replayOperationActions operationId assetId blk bt txId acts st).histories →
      e ∈ st.histories ∨ e.Block = blk := by
  induction acts with
  | nil => intro st e h; exact Or.inl h
  | cons a t ih =>
    intro st e h
    rw [replayOperationActions_cons] at h
    rcases ih _ _ h with h1 | h2
    · rcases mem_histories_historyUpsert _ _ _ _ _ _ _ _ _ _ _ _ h1 with h3 | h3
      · exact Or.inl h3
      · exact Or.inr h3
    · exact Or.inr h2

/-- C9: every balance entry and every history entry written while applying an
action records `Block` equal to ten times the action's on-chain block number
(`action.block * 10`), not the block number itself. -/
theorem block_times_ten (env : Env) (seq : Nat) (a : Action) (st stF : State)
    (h : applyAction env seq a st = some stF) :
    (∀ e ∈ stF.balances, e ∈ st.balances ∨ e.Block = a.block * 10)
    ∧ (∀ e ∈ stF.histories, e ∈ st.histories ∨ e.Block = a.block * 10) := by
  cases hop : a.op with
  | other name =>
    simp only [applyAction, hop, Option.some.injEq] at h
    subst h
    exact ⟨fun e he => Or.inl he, fun e he => Or.inl he⟩
  | transfer t =>
    simp only [applyAction, hop] at h
    cases hlk : getOperationIdByTxId st a.trx_id with
    | some operationId =>
      simp only [hlk] at h
      cases hgo : getOperation st operationId with
      | none =>
        simp only [hgo] at h
        cases h
      | some operation =>
        simp only [hgo] at h
        by_cases hc : operation.isCompleted = true
        · rw [if_pos hc] at h
          cases Option.some.inj h
          exact ⟨fun e he => Or.inl he, fun e he => Or.inl he⟩
        · rw [if_neg hc] at h
          cases Option.some.inj h
          constructor
          · intro e he
            exact replay_balances_block _ _ _ _ _ _ _ _ he
          · intro e he
            exact replay_histories_block _ _ _ _ _ _ _ _ he
    | none =>
      simp only [hlk] at h
      cases ha : (splitAmount t.amount).2.bind env.assets with
      | none =>
        simp only [ha] at h
        cases Option.some.inj h
        exact ⟨fun e he => Or.inl he, fun e he => Or.inl he⟩
      | some asset =>
        simp only [ha] at h
        by_cases hv : env.isSteemAddress (destinationOf t) = true
        · rw [if_pos hv] at h
          cases Option.some.inj h
          constructor
          · intro e he
            rcases mem_balances_balanceUpsert _ _ _ _ _ _ _ _ he with h1 | h1
            · rcases mem_balances_balanceUpsert _ _ _ _ _ _ _ _ h1 with h2 | h2
              · exact Or.inl h2
              · exact Or.inr h2
            · exact Or.inr h1
          · intro e he
            rcases mem_histories_historyUpsert _ _ _ _ _ _ _ _ _ _ _ _ he with h1 | h1
            · exact Or.inl h1
            · exact Or.inr h1
        · rw [if_neg hv] at h
          cases Option.some.inj h
          exact ⟨fun e he => Or.inl he, fun e he => Or.inl he⟩

/-- Witness for `block_times_ten` on a concrete skipped action. -/
theorem block_times_ten_witness :
    (∀ e ∈ emptyState.balances, e ∈ emptyState.balances ∨ e.Block = actionOther.block * 10)
    ∧ (∀ e ∈ emptyState.histories,
        e ∈ emptyState.histories ∨ e.Block = actionOther.block * 10) :=
  block_times_ten envSTEEM 9 actionOther emptyState emptyState rfl

/-! ### C5 — the expiry sweep -/

theorem find?_map_pred_inv {α : Type} (p : α → Bool) (g : α → α)
    (hg : ∀ x, p (g x) = p x) : ∀ l : List α, (l.map g).find? p = (l.find? p).map g := by
  intro l
  induction l with
  | nil => rfl
  | cons a t ih =>
    rw [List.map_cons, List.find?_cons, List.find?_cons, hg a]
    cases hpa : p a
    · simpa using ih
    · rfl

theorem getOperation_updateOperation_full (s : State) (id id' : String)
    (u : OperationUpdate) :
    getOperation (updateOperation s id u) id'
      = (getOperation s id').map
          (fun op => if op.OperationId == id then applyOperationUpdate op u else op) := by
  simp only [getOperation, updateOperation]
  apply find?_map_pred_inv
  intro x
  by_cases hx : (x.OperationId == id) = true <;>
    simp [hx, applyOperationUpdate_OperationId]

theorem getOperation_sweepStep_ne (now : Nat) (s : State) (i id : String)
    (h : id ≠ i) : getOperation (sweepStep now s i) id = getOperation s id := by
  cases hop : getOperation s i with
  | none => simp [sweepStep, hop]
  | some operation =>
    have hopid : operation.OperationId = i := by
      have := List.find?_some hop
      simpa using this
    simp only [sweepStep, hop]
    by_cases hg : (!operation.isCompleted && !operation.isFailed) = true
    · rw [if_pos hg, getOperation_updateOperation_full]
      cases hfind : getOperation s id with
      | none => rfl
      | some op' =>
        have hop'id : op'.OperationId = id := by
          have := List.find?_some hfind
          simpa using this
        have hne2 : (op'.OperationId == operation.OperationId) = false := by
          simp only [beq_eq_false_iff_ne, ne_eq, hop'id, hopid]
          exact h
        simp only [hfind, Option.map_some', hne2, Bool.false_eq_true, if_false]
    · rw [if_neg hg]

theorem getOperation_sweepExpired_notMem (now : Nat) :
    ∀ (ids : List String) (s : State) (id : String), id ∉ ids →
      getOperation (sweepExpired now ids s) id = getOperation s id := by
  intro ids
  induction ids with
  | nil => intro s id _; rfl
  | cons i t ih =>
    intro s id hid
    have hne : id ≠ i := fun he => hid (he ▸ List.mem_cons_self i t)
    have hnt : id ∉ t := fun ht => hid (List.mem_cons_of_mem i ht)
    show getOperation (sweepExpired now t (sweepStep now s i)) id = getOperation s id
    rw [ih _ _ hnt, getOperation_sweepStep_ne now s i id hne]

theorem getOperation_sweepExpired_mem (now : Nat) :
    ∀ (ids : List String), ids.Nodup →
      ∀ (s : State) (id : String) (op : Operation), id ∈ ids →
        getOperation s id = some op →
        getOperation (sweepExpired now ids s) id
          = some (if !op.isCompleted && !op.isFailed then
              applyOperationUpdate op (failUpdate now) else op) := by
  intro ids
  induction ids with
  | nil => intro _ s id op hmem; cases hmem
  | cons i t ih =>
    intro hnodup s id op hmem hget
    have hint : i ∉ t := (List.nodup_cons.mp hnodup).1
    rcases List.mem_cons.mp hmem with rfl | hmemt
    · show getOperation (sweepExpired now t (sweepStep now s id)) id = _
      have hstep : getOperation (sweepStep now s id) id
          = some (if !op.isCompleted && !op.isFailed then
              applyOperationUpdate op (failUpdate now) else op) := by
        have hopid : op.OperationId = id := by
          have := List.find?_some hget
          simpa using this
        simp only [sweepStep, hget]
        by_cases hg : (!op.isCompleted && !op.isFailed) = true
        · rw [if_pos hg, getOperation_updateOperation_full, hget]
          simp [hg, hopid]
        · rw [if_neg hg]
          simp [hg, hget]
      rw [getOperation_sweepExpired_notMem now t _ id hint, hstep]
    · have hne : id ≠ i := fun he => hint (he ▸ hmemt)
      show getOperation (sweepExpired now t (sweepStep now s i)) id = _
      exact ih (List.nodup_cons.mp hnodup).2 _ id op hmemt
        ((getOperation_sweepStep_ne now s i id hne).trans hget)

theorem getOperation_eq_of_mem :
    ∀ (l : List Operation) (op : Operation),
      (l.map (fun o => o.OperationId)).Nodup → op ∈ l →
      l.find? (fun o => o.OperationId == op.OperationId) = some op := by
  intro l
  induction l with
  | nil => intro op _ hmem; cases hmem
  | cons a t ih =>
    intro op hnodup hmem
    rcases List.mem_cons.mp hmem with rfl | hmemt
    · rw [List.find?_cons]
      simp
    · rw [List.find?_cons]
      have hne : (a.OperationId == op.OperationId) = false := by
        have hnin : a.OperationId ∉ t.map (fun o => o.OperationId) :=
          (List.nodup_cons.mp (by simpa using hnodup)).1
        have : op.OperationId ∈ t.map (fun o => o.OperationId) :=
          List.mem_map_of_mem _ hmemt
        simp only [beq_eq_false_iff_ne, ne_eq]
        intro he
        exact hnin (he ▸ this)
      rw [hne]
      exact ih op (List.nodup_cons.mp (by simpa using hnodup)).2 hmemt

theorem writeParamsLastTime_lastTime (t : Nat) (s : State) :
    ((writeParamsLastTime t s).params.bind
      (fun p => p.LastProcessedIrreversibleBlockTime)) = some t := by
  cases hp : s.params <;>
    simp [writeParamsLastTime, paramsUpsert, insertOrMerge, hp]

/-- C5: `handleExpired(n)` obtains the timestamp of block `n`, queries the
Operations whose expiry falls in the window between the checkpointed
`lastProcessedIrreversibleBlockTime` (epoch 0 if absent) and that timestamp,
fails — with the expiry error code and a fail time — exactly those among them
that are neither completed nor failed, leaves every other Operation
unchanged, persists the new timestamp afterwards, and a second sweep over the
same range fails no Operation a second time. -/
theorem expiry_sweep_contract (env : Env) (n : Nat) (st : State)
    (hnodup : (st.operations.map (fun o => o.OperationId)).Nodup) :
    ((handleExpired env n st).params.bind
        (fun p => p.LastProcessedIrreversibleBlockTime)) = some (env.blockTimestamp n)
    ∧ (∀ op ∈ st.operations,
        ((((st.params.bind (fun p => p.LastProcessedIrreversibleBlockTime)).getD 0
              < op.ExpiryTime)
            ∧ op.ExpiryTime ≤ env.blockTimestamp n
            ∧ op.isCompleted = false ∧ op.isFailed = false) →
          getOperation (handleExpired env n st) op.OperationId
            = some (applyOperationUpdate op (failUpdate env.now)))
        ∧ (¬ ((((st.params.bind (fun p => p.LastProcessedIrreversibleBlockTime)).getD 0
              < op.ExpiryTime))
            ∧ op.ExpiryTime ≤ env.blockTimestamp n
            ∧ op.isCompleted = false ∧ op.isFailed = false) →
          getOperation (handleExpired env n st) op.OperationId = some op))
    ∧ (∀ op : Operation,
        (applyOperationUpdate op (failUpdate env.now)).isFailed = true
        ∧ (applyOperationUpdate op (failUpdate env.now)).errorCode
            = some ErrorCode.buildingShouldBeRepeated
        ∧ (applyOperationUpdate op (failUpdate env.now)).FailTime = some env.now)
    ∧ (handleExpired env n (handleExpired env n st)).operations
        = (handleExpired env n st).operations := by
  have hids_nodup : (geOperationIdByExpiryTime st
      ((st.params.bind (fun p => p.LastProcessedIrreversibleBlockTime)).getD 0)
      (env.blockTimestamp n)).Nodup := by
    apply hnodup.sublist
    exact List.Sublist.map _ (List.filter_sublist _)
  have hfirst : ((handleExpired env n st).params.bind
      (fun p => p.LastProcessedIrreversibleBlockTime)) = some (env.blockTimestamp n) :=
    writeParamsLastTime_lastTime _ _
  refine ⟨hfirst, ?_, ?_, ?_⟩
  · intro op hmem
    have hget : getOperation st op.OperationId = some op :=
      getOperation_eq_of_mem st.operations op hnodup hmem
    constructor
    · rintro ⟨h1, h2, h3, h4⟩
      have hin : op.OperationId ∈ geOperationIdByExpiryTime st
          ((st.params.bind (fun p => p.LastProcessedIrreversibleBlockTime)).getD 0)
          (env.blockTimestamp n) := by
        apply List.mem_map_of_mem
        exact List.mem_filter.mpr ⟨hmem, by simp [h1, h2]⟩
      have hsweep := getOperation_sweepExpired_mem env.now _ hids_nodup st
        op.OperationId op hin hget
      show getOperation (sweepExpired env.now _ st) op.OperationId = _
      rw [hsweep]
      simp [h3, h4]
    · intro hnot
      by_cases hin : op.OperationId ∈ geOperationIdByExpiryTime st
          ((st.params.bind (fun p => p.LastProcessedIrreversibleBlockTime)).getD 0)
          (env.blockTimestamp n)
      · have hq : ((st.params.bind
            (fun p => p.LastProcessedIrreversibleBlockTime)).getD 0 < op.ExpiryTime)
            ∧ op.ExpiryTime ≤ env.blockTimestamp n := by
          rcases List.mem_map.mp hin with ⟨op', hop'F, hfeq⟩
          rcases List.mem_filter.mp hop'F with ⟨hop'mem, hq'⟩
          have : op' = op :=
            List.inj_on_of_nodup_map hnodup hop'mem hmem hfeq
          subst this
          simpa using hq'
        have hsweep := getOperation_sweepExpired_mem env.now _ hids_nodup st
          op.OperationId op hin hget
        have hg : (!op.isCompleted && !op.isFailed) = false := by
          by_cases hgg : (!op.isCompleted && !op.isFailed) = true
          · exfalso
            apply hnot
            simp only [Bool.and_eq_true, Bool.not_eq_true'] at hgg
            exact ⟨hq.1, hq.2, hgg.1, hgg.2⟩
          · simpa using hgg
        show getOperation (sweepExpired env.now _ st) op.OperationId = _
        rw [hsweep, hg]
        simp
      · show getOperation (sweepExpired env.now _ st) op.OperationId = _
        rw [getOperation_sweepExpired_notMem env.now _ st op.OperationId hin]
        exact hget
  · intro op
    refine ⟨?_, ?_, ?_⟩ <;>
      simp [applyOperationUpdate, failUpdate, Operation.isFailed, Option.orElse]
  · have hids2 : geOperationIdByExpiryTime (handleExpired env n st)
        (((handleExpired env n st).params.bind
          (fun p => p.LastProcessedIrreversibleBlockTime)).getD 0)
        (env.blockTimestamp n) = [] := by
      rw [hfirst]
      simp only [Option.getD_some, geOperationIdByExpiryTime]
      have : (handleExpired env n st).operations.filter (fun op =>
          decide (env.blockTimestamp n < op.ExpiryTime)
            && decide (op.ExpiryTime ≤ env.blockTimestamp n)) = [] := by
        apply List.filter_eq_nil_iff.mpr
        intro op _
        simp only [Bool.and_eq_true, decide_eq_true_eq, not_and]
        intro hlt hle
        omega
      rw [this]
      rfl
    show (sweepExpired env.now _ (handleExpired env n st)).operations
        = (handleExpired env n st).operations
    rw [hids2]
    rfl



/-- Witness for `expiry_sweep_contract` at a concrete mixed state. -/
theorem expiry_sweep_contract_witness :
    ((handleExpired envExp 42 stExp).params.bind
        (fun p => p.LastProcessedIrreversibleBlockTime)) = some (envExp.blockTimestamp 42)
    ∧ (∀ op ∈ stExp.operations,
        ((((stExp.params.bind (fun p => p.LastProcessedIrreversibleBlockTime)).getD 0
              < op.ExpiryTime)
            ∧ op.ExpiryTime ≤ envExp.blockTimestamp 42
            ∧ op.isCompleted = false ∧ op.isFailed = false) →
          getOperation (handleExpired envExp 42 stExp) op.OperationId
            = some (applyOperationUpdate op (failUpdate envExp.now)))
        ∧ (¬ ((((stExp.params.bind (fun p => p.LastProcessedIrreversibleBlockTime)).getD 0
              < op.ExpiryTime))
            ∧ op.ExpiryTime ≤ envExp.blockTimestamp 42
            ∧ op.isCompleted = false ∧ op.isFailed = false) →
          getOperation (handleExpired envExp 42 stExp) op.OperationId = some op))
    ∧ (∀ op : Operation,
        (applyOperationUpdate op (failUpdate envExp.now)).isFailed = true
        ∧ (applyOperationUpdate op (failUpdate envExp.now)).errorCode
            = some ErrorCode.buildingShouldBeRepeated
        ∧ (applyOperationUpdate op (failUpdate envExp.now)).FailTime = some envExp.now)
    ∧ (handleExpired envExp 42 (handleExpired envExp 42 stExp)).operations
        = (handleExpired envExp 42 stExp).operations :=
  expiry_sweep_contract envExp 42 stExp (by decide)

/-! ### C7 — paginated reads: continuation tokens and termination -/

theorem digit_char_facts : ∀ d : Nat, d < 10 →
    (Char.ofNat (48 + d)).isDigit = true ∧ (Char.ofNat (48 + d)).toNat - 48 = d := by
  decide

theorem natToDigitsAux_eq : ∀ (f n : Nat), n ≤ f →
    natToDigitsAux f n = ((Nat.digits 10 n).map (fun d => Char.ofNat (48 + d))).reverse := by
  intro f
  induction f with
  | zero =>
    intro n h
    have : n = 0 := Nat.le_zero.mp h
    subst this
    simp [natToDigitsAux]
  | succ f ih =>
    intro n h
    cases n with
    | zero => simp [natToDigitsAux]
    | succ m =>
      have hdiv : (m + 1) / 10 ≤ f := by
        have h1 : (m + 1) / 10 < m + 1 := Nat.div_lt_self (Nat.succ_pos m) (by norm_num)
        omega
      rw [natToDigitsAux, ih _ hdiv,
        Nat.digits_def' (by norm_num : 1 < 10) (Nat.succ_pos m)]
      simp [List.reverse_cons]

theorem takeWhile_all {α : Type} (p : α → Bool) :
    ∀ l : List α, (∀ c ∈ l, p c = true) → l.takeWhile p = l := by
  intro l
  induction l with
  | nil => intro _; rfl
  | cons a t ih =>
    intro h
    simp [List.takeWhile_cons, h a (List.mem_cons_self a t),
      ih (fun c hc => h c (List.mem_cons_of_mem a hc))]

theorem foldl_step_reverse (L : List Nat) : ∀ acc : Nat,
    L.reverse.foldl (fun a d => a * 10 + d) acc
      = acc * 10 ^ L.length + Nat.ofDigits 10 L := by
  induction L with
  | nil =>
    intro acc
    simp [Nat.ofDigits_nil]
  | cons d T ih =>
    intro acc
    rw [List.reverse_cons, List.foldl_append]
    simp only [List.foldl_cons, List.foldl_nil]
    rw [ih, Nat.ofDigits_cons, List.length_cons]
    ring

theorem parseIntD_natToDecString (n : Nat) : parseIntD (natToDecString n) = n := by
  by_cases hn : n = 0
  · subst hn
    decide
  · unfold natToDecString
    rw [if_neg hn]
    show digitsVal ((natToDigitsAux n n).takeWhile (fun c => c.isDigit)) = n
    rw [natToDigitsAux_eq n n le_rfl]
    rw [takeWhile_all]
    · rw [← List.map_reverse]
      unfold digitsVal
      rw [List.foldl_map]
      calc ((Nat.digits 10 n).reverse).foldl
            (fun a c => a * 10 + (((fun d => Char.ofNat (48 + d)) c).toNat - 48)) 0
          = ((Nat.digits 10 n).reverse).foldl (fun a d => a * 10 + d) 0 := by
            apply List.foldl_ext
            intro a d hd
            rw [List.mem_reverse] at hd
            have hlt : d < 10 := Nat.digits_lt_base (by norm_num) hd
            rw [(digit_char_facts d hlt).2]
        _ = 0 * 10 ^ (Nat.digits 10 n).length + Nat.ofDigits 10 (Nat.digits 10 n) :=
            foldl_step_reverse _ 0
        _ = n := by
            rw [Nat.ofDigits_digits]
            ring
    · intro c hc
      rw [List.mem_reverse] at hc
      rcases List.mem_map.mp hc with ⟨d, hd, rfl⟩
      exact (digit_char_facts d (Nat.digits_lt_base (by norm_num) hd)).1

theorem paginateAll_drop (st : State) («take» : Nat) (htake : 0 < «take») :
    ∀ (f : Nat) (cont : Option String) (skip : Nat), skipOf cont = skip →
      (groupedObservable st).length - skip < f * «take» →
      paginateAll st «take» f cont = (groupedObservable st).drop skip := by
  intro f
  induction f with
  | zero =>
    intro cont skip hskip hlt
    simp at hlt
  | succ f ih =>
    intro cont skip hskip hlt
    show (let r := getPaged st «take» cont
      match r.2 with
      | none => r.1
      | some t => r.1 ++ paginateAll st «take» f (some t)) = _
    simp only [getPaged, hskip]
    by_cases hpage : (((groupedObservable st).drop skip).take «take»).length < «take»
    · simp only [hpage, if_true]
      apply List.take_of_length_le
      rw [List.length_take, List.length_drop] at hpage
      rw [List.length_drop]
      omega
    · simp only [hpage, if_false]
      have hlen : «take» ≤ (groupedObservable st).length - skip := by
        rw [List.length_take, List.length_drop] at hpage
        omega
      rw [ih (some (natToDecString (skip + «take»))) (skip + «take»)
        (parseIntD_natToDecString _)]
      · rw [← List.drop_drop]
        exact List.take_append_drop _ _
      · have hexp : (f + 1) * «take» = f * «take» + «take» := by ring
        rw [hexp] at hlt
        set A := f * «take» with hA
        omega

/-- C7: for `BalanceRepository.get(take, continuation)`, the returned
continuation token is `null` exactly when the returned page is smaller than
`take`; otherwise it is the decimal string of `skip + take`, `skip` being the
numeric value of the incoming token (0 when absent) — a value `parseInt`
recovers exactly. A page with a `null` token holds all remaining grouped
rows, and requesting pages of size `P > 0` with the returned tokens
reproduces exactly the non-cancelled observable grouped rows within
`length + 1` requests. -/
theorem pagination_contract (st : State) («take» : Nat) (cont : Option String)
    (htake : 0 < «take») :
    ((getPaged st «take» cont).2 = none
      ↔ (getPaged st «take» cont).1.length < «take»)
    ∧ (∀ tok, (getPaged st «take» cont).2 = some tok →
        tok = natToDecString (skipOf cont + «take»))
    ∧ parseIntD (natToDecString (skipOf cont + «take»)) = skipOf cont + «take»
    ∧ ((getPaged st «take» cont).2 = none →
        (getPaged st «take» cont).1 = (groupedObservable st).drop (skipOf cont))
    ∧ paginateAll st «take» ((groupedObservable st).length + 1) none
        = groupedObservable st := by
  refine ⟨?_, ?_, parseIntD_natToDecString _, ?_, ?_⟩
  · simp only [getPaged]
    by_cases hpage : (((groupedObservable st).drop (skipOf cont)).take «take»).length
        < «take» <;> simp [hpage]
  · intro tok htok
    simp only [getPaged] at htok
    by_cases hpage : (((groupedObservable st).drop (skipOf cont)).take «take»).length
        < «take»
    · rw [if_pos hpage] at htok
      cases htok
    · rw [if_neg hpage] at htok
      exact (Option.some.inj htok).symm
  · intro hnone
    simp only [getPaged] at hnone ⊢
    by_cases hpage : (((groupedObservable st).drop (skipOf cont)).take «take»).length
        < «take»
    · apply List.take_of_length_le
      rw [List.length_take, List.length_drop] at hpage
      rw [List.length_drop]
      omega
    · rw [if_neg hpage] at hnone
      cases hnone
  · apply paginateAll_drop st «take» htake _ none 0 rfl
    have : (groupedObservable st).length + 1
        ≤ ((groupedObservable st).length + 1) * «take» :=
      Nat.le_mul_of_pos_right _ htake
    omega


/-- Witness for `pagination_contract` at page size 1 over a two-row ledger. -/
theorem pagination_contract_witness :
    ((getPaged stPage 1 none).2 = none ↔ (getPaged stPage 1 none).1.length < 1)
    ∧ (∀ tok, (getPaged stPage 1 none).2 = some tok →
        tok = natToDecString (skipOf none + 1))
    ∧ parseIntD (natToDecString (skipOf none + 1)) = skipOf none + 1
    ∧ ((getPaged stPage 1 none).2 = none →
        (getPaged stPage 1 none).1 = (groupedObservable stPage).drop (skipOf none))
    ∧ paginateAll stPage 1 ((groupedObservable stPage).length + 1) none
        = groupedObservable stPage :=
  pagination_contract stPage 1 none (by decide)

end LykkeSteem
